/-
  Verification of the schema migration runner of the user-service
  repository (Catalog, Runner, ledger table) and of the two
  command-line entry points (cmd/migrate and cmd/server).

  The runner package `internal/app/migrations` is not part of the
  checked-out sources; its behaviour is modelled from the design
  document, faithfully to the state machine described there
  (LEDGER_READY, COMPUTE_PENDING / COMPUTE_LAST_APPLIED, EXECUTING),
  while the two `main` functions are translated from the sources.
-/
import Mathlib

namespace MigrationSpec

/-- Modelled from the spec: a persisted ledger record of the
`schema_migrations` table — `id` matching a MigrationDefinition id and
an `applied_at` timestamp (modelled as a natural number). -/
structure LedgerEntry where
  id : String
  applied_at : Nat
deriving DecidableEq

/-- Modelled from the spec: a MigrationDefinition — an immutable value
holding a globally unique `id` and two schema-change procedures `up`
and `down`.  A procedure acts on an abstract schema state `σ` and
returns `none` exactly when it fails (its transaction must then be
rolled back). -/
structure Migration (σ : Type) where
  id : String
  up : σ → Option σ
  down : σ → Option σ

/-- Modelled from the spec: the database state visible to the Runner —
the schema proper, whether the ledger table exists, its rows, and a
clock supplying `applied_at` timestamps (CURRENT_TIMESTAMP). -/
structure DB (σ : Type) where
  schema : σ
  ledgerExists : Bool
  ledger : List LedgerEntry
  clock : Nat
deriving DecidableEq

variable {σ : Type}

/-- The rows of the ledger table: empty when the table does not exist. -/
def ledgerRows (db : DB σ) : List LedgerEntry :=
  if db.ledgerExists then db.ledger else []

/-- The ids recorded in the ledger. -/
def appliedIds (db : DB σ) : List String :=
  db.ledger.map (·.id)

/-- Modelled from the spec: `LEDGER_READY` — idempotently ensure the
ledger table exists (create-if-absent, never dropping or altering an
existing table). -/
def ensureLedger (db : DB σ) : DB σ :=
  if db.ledgerExists then db
  else { db with ledgerExists := true, ledger := [] }

/-- One column of a CREATE TABLE statement. -/
structure ColumnDef where
  name : String
  type : String
  primaryKey : Bool
  defaultVal : Option String
deriving DecidableEq

/-- A CREATE TABLE statement. -/
structure TableDef where
  name : String
  columns : List ColumnDef
deriving DecidableEq

/-- The DDL of the ledger table as documented in docs/MIGRATIONS.md:
`CREATE TABLE schema_migrations (id VARCHAR(255) PRIMARY KEY,
applied_at TIMESTAMP DEFAULT CURRENT_TIMESTAMP)`. -/
def schemaMigrationsDDL : TableDef :=
  { name := "schema_migrations"
    columns :=
      [ { name := "id", type := "VARCHAR(255)", primaryKey := true,
          defaultVal := none }
      , { name := "applied_at", type := "TIMESTAMP", primaryKey := false,
          defaultVal := some "CURRENT_TIMESTAMP" } ] }

/-- Modelled from the spec: the Catalog's `all()` — the registered
definitions in ascending `id` order, whatever the registration order. -/
def sortCat (cat : List (Migration σ)) : List (Migration σ) :=
  cat.insertionSort (fun a b => a.id.data ≤ b.id.data)

/-- Modelled from the spec: inserting a LedgerEntry for `i`; the
PRIMARY KEY constraint on `id` makes a duplicate insert fail. -/
def insertLedger (db : DB σ) (i : String) : Option (DB σ) :=
  if i ∈ appliedIds db then none
  else some { db with ledger := db.ledger ++ [⟨i, db.clock⟩],
                      clock := db.clock + 1 }

/-- Modelled from the spec: the single-migration transaction of the
apply-up path — run the `up` procedure, then insert the LedgerEntry in
the same transaction; `none` means the transaction rolled back (either
step failed), so the caller keeps the previous state. -/
def applyOne (m : Migration σ) (db : DB σ) : Option (DB σ) :=
  match m.up db.schema with
  | none => none
  | some s => insertLedger { db with schema := s } m.id

/-- Modelled from the spec: `EXECUTING` on the apply-up path — apply the
pending definitions in order, stopping at the first failed transaction.
Returns the final state, the ids committed in order, and the id of the
failing migration, if any. -/
def runPending : List (Migration σ) → DB σ → DB σ × List String × Option String
  | [], db => (db, [], none)
  | m :: rest, db =>
    match applyOne m db with
    | none => (db, [], some m.id)
    | some db' =>
      let r := runPending rest db'
      (r.1, m.id :: r.2.1, r.2.2)

/-- Modelled from the spec: `COMPUTE_PENDING` — the Catalog entries, in
ascending id order, whose id has no LedgerEntry. -/
def pendingOf (cat : List (Migration σ)) (db : DB σ) : List (Migration σ) :=
  (sortCat cat).filter (fun m => decide (m.id ∉ appliedIds db))

/-- Modelled from the spec: `MigrateUp` — ensure the ledger table, diff
the Catalog against the ledger, and execute the pending subsequence
migration-by-migration, each in its own transaction. -/
def MigrateUp (cat : List (Migration σ)) (db : DB σ) :
    DB σ × List String × Option String :=
  let db1 := ensureLedger db
  runPending (pendingOf cat db1) db1

/-- Does `b` come strictly later than `a` in the ledger ordering used by
`COMPUTE_LAST_APPLIED` (by `applied_at`, ties broken by `id`)? -/
def laterEntry (a b : LedgerEntry) : Bool :=
  decide (a.applied_at < b.applied_at ∨
          (a.applied_at = b.applied_at ∧ a.id.data < b.id.data))

/-- Modelled from the spec: `COMPUTE_LAST_APPLIED` — the single
most-recently-applied LedgerEntry, `none` on an empty ledger. -/
def lastApplied (db : DB σ) : Option LedgerEntry :=
  match ledgerRows db with
  | [] => none
  | e :: es => some (es.foldl (fun a b => if laterEntry a b then b else a) e)

/-- Look a migration definition up in the Catalog by id. -/
def findMigration (cat : List (Migration σ)) (i : String) :
    Option (Migration σ) :=
  cat.find? (fun m => m.id == i)

/-- Modelled from the spec: `MigrateDown` — roll back exactly the single
most-recently-applied migration in one transaction (run its `down`
procedure and delete its LedgerEntry), a no-op success when nothing is
applied.  Returns the final state, the id whose rollback committed (if
any), and the error (if any). -/
def MigrateDown (cat : List (Migration σ)) (db : DB σ) :
    DB σ × Option String × Option String :=
  let db1 := ensureLedger db
  match lastApplied db1 with
  | none => (db1, none, none)
  | some e =>
    match findMigration cat e.id with
    | none => (db1, none, some e.id)
    | some m =>
      match m.down db1.schema with
      | none => (db1, none, some e.id)
      | some s =>
        ({ db1 with schema := s,
                    ledger := db1.ledger.filter (fun x => !(x.id == e.id)) },
         some e.id, none)

/-- One line of the status report. -/
structure StatusLine where
  id : String
  applied : Bool
  applied_at : Option Nat
deriving DecidableEq

/-- Modelled from the spec: the status path — a pure read producing, for
every Catalog entry in Catalog order, whether it has a LedgerEntry
(applied, with timestamp) or not (pending); an absent ledger table reads
as no migrations applied. -/
def StatusReport (cat : List (Migration σ)) (db : DB σ) : List StatusLine :=
  (sortCat cat).map (fun m =>
    match (ledgerRows db).find? (fun e => e.id == m.id) with
    | some e => ⟨m.id, true, some e.applied_at⟩
    | none => ⟨m.id, false, none⟩)

/-- Modelled from the spec: `Status` as an entry point — it mutates
nothing, merely pairing the unchanged state with the report. -/
def Status (cat : List (Migration σ)) (db : DB σ) :
    DB σ × List StatusLine :=
  (db, StatusReport cat db)

/-- The ordering key of a ledger entry used by `COMPUTE_LAST_APPLIED`:
timestamps first, ids (compared lexicographically) as tie-break. -/
def entryKey (e : LedgerEntry) : Lex (Nat × List Char) :=
  toLex (e.applied_at, e.id.data)

/-- An event observable on the database: a committed apply or a
committed rollback of the migration with the given id. -/
inductive MigEvent where
  | upCommit (id : String)
  | downCommit (id : String)
deriving DecidableEq

/-- One caller invocation of the Runner, with the Catalog it was
constructed over. -/
inductive Cmd (σ : Type) where
  | up (cat : List (Migration σ))
  | down (cat : List (Migration σ))
  | status (cat : List (Migration σ))

/-- Execute one invocation, recording the committed events. -/
def step (c : Cmd σ) (db : DB σ) : DB σ × List MigEvent :=
  match c with
  | Cmd.up cat =>
    ((MigrateUp cat db).1, (MigrateUp cat db).2.1.map MigEvent.upCommit)
  | Cmd.down cat =>
    ((MigrateDown cat db).1,
     match (MigrateDown cat db).2.1 with
     | some i => [MigEvent.downCommit i]
     | none => [])
  | Cmd.status cat => ((Status cat db).1, [])

/-- Execute a sequence of invocations, concatenating the events. -/
def run : List (Cmd σ) → DB σ → DB σ × List MigEvent
  | [], db => (db, [])
  | c :: cs, db =>
    ((run cs (step c db).1).1, (step c db).2 ++ (run cs (step c db).1).2)

/-- The last event touching `x` was a commit of its `up` procedure
(last-writer-wins fold over the event history). -/
def netUpFrom (b : Bool) (evs : List MigEvent) (x : String) : Bool :=
  evs.foldl (fun b e =>
    match e with
    | MigEvent.upCommit i => if i = x then true else b
    | MigEvent.downCommit i => if i = x then false else b) b

/-- Migration `x`'s `up` procedure has successfully committed and no
subsequent rollback of `x` has committed. -/
def upWithNoLaterDown (evs : List MigEvent) (x : String) : Prop :=
  ∃ l r, evs = l ++ MigEvent.upCommit x :: r ∧ MigEvent.downCommit x ∉ r

/-- Well-formedness of a database state: when the ledger table does not
exist it has no rows. -/
def WFLedger (db : DB σ) : Prop :=
  db.ledgerExists = false → db.ledger = []

/-- A three-entry example catalog registered out of ascending-id order
(ids 002, 001, 003), every procedure succeeding. -/
def exampleCat : List (Migration Nat) :=
  [ ⟨"002", fun s => some s, fun s => some s⟩
  , ⟨"001", fun s => some s, fun s => some s⟩
  , ⟨"003", fun s => some s, fun s => some s⟩ ]

/-- An example database: ledger table present, nothing applied. -/
def exampleDB : DB Nat := ⟨0, true, [], 0⟩

/-- An example catalog with ids 001 and 002, both procedures
succeeding. -/
def twoCat : List (Migration Nat) :=
  [ ⟨"001", fun s => some s, fun s => some s⟩
  , ⟨"002", fun s => some s, fun s => some s⟩ ]

/-- An example database whose ledger records 001 as applied at time 5. -/
def oneAppliedDB : DB Nat := ⟨0, true, [⟨"001", 5⟩], 6⟩

/-- An example catalog whose single migration's up procedure always
fails. -/
def failCat : List (Migration Nat) :=
  [⟨"001", fun _ => none, fun s => some s⟩]

/-- An example catalog where 001 succeeds, 002 always fails and 003
would succeed. -/
def failSecondCat : List (Migration Nat) :=
  [ ⟨"001", fun s => some (s + 1), fun s => some s⟩
  , ⟨"002", fun _ => none, fun s => some s⟩
  , ⟨"003", fun s => some (s + 100), fun s => some s⟩ ]

/-- An example catalog with ids 001, 002, 003, all procedures
succeeding. -/
def threeCat : List (Migration Nat) :=
  [ ⟨"001", fun s => some (s + 1), fun s => some (s - 1)⟩
  , ⟨"002", fun s => some (s + 1), fun s => some (s - 1)⟩
  , ⟨"003", fun s => some (s + 1), fun s => some (s - 1)⟩ ]

/-- An example database with 001, 002 and 003 applied at times 1, 2
and 3. -/
def threeAppliedDB : DB Nat :=
  ⟨3, true, [⟨"001", 1⟩, ⟨"002", 2⟩, ⟨"003", 3⟩], 4⟩

/-- A catalog with ids 001, 002, 003 built from the given up and down
procedures, registered in ascending order. -/
def resumeCat (u1 u2 u3 d1 d2 d3 : σ → Option σ) : List (Migration σ) :=
  [⟨"001", u1, d1⟩, ⟨"002", u2, d2⟩, ⟨"003", u3, d3⟩]

/-- A database with an empty ledger over schema state `s0`. -/
def freshDB (s0 : σ) (b : Bool) (c0 : Nat) : DB σ := ⟨s0, b, [], c0⟩

/-- One step of the cmd/migrate command-line program. -/
inductive CliStep where
  | loadConfig
  | sqlOpen
  | dbPing
  | newRunner
  | execUp
  | execDown
  | execStatus
  | fatalConnect
  | fatalPing
  | fatalOp
  | fatalUnknown (cmd : String)
deriving DecidableEq

/-- The trace of the cmd/migrate `main`: parse the `-command` flag, load
the configuration, open the MySQL connection, ping it, construct the
runner, and only then dispatch on the command; a command outside
up/down/status reaches the switch's default case (a fatal error). -/
def migrateMain (command : String) (openOk pingOk opOk : Bool) :
    List CliStep :=
  [CliStep.loadConfig, CliStep.sqlOpen] ++
  (if openOk then
    [CliStep.dbPing] ++
    (if pingOk then
      [CliStep.newRunner] ++
      (if command = "up" then
        [CliStep.execUp] ++ (if opOk then [] else [CliStep.fatalOp])
      else if command = "down" then
        [CliStep.execDown] ++ (if opOk then [] else [CliStep.fatalOp])
      else if command = "status" then
        [CliStep.execStatus] ++ (if opOk then [] else [CliStep.fatalOp])
      else [CliStep.fatalUnknown command])
    else [CliStep.fatalPing])
  else [CliStep.fatalConnect])

/-- Steps of the cmd/migrate program that interact with the database. -/
def isDbInteraction : CliStep → Bool
  | CliStep.dbPing => true
  | CliStep.execUp => true
  | CliStep.execDown => true
  | CliStep.execStatus => true
  | _ => false

/-- One step of the cmd/server `main` (the gin entry point). -/
inductive ServerStep where
  | loadConfig
  | initDB
  | fatalInit
  | runMigrations
  | fatalMigrations
  | newRepository
  | newService
  | newHandler
  | setReleaseMode
  | ginNew
  | setupRoutes
  | routerRun
  | fatalRun
deriving DecidableEq

/-- Translated from pkg/db/migrate.go: RunMigrations obtains the raw SQL
handle from GORM (which can fail), constructs the runner over the full
catalog, and runs MigrateUp, returning its error. -/
def RunMigrations (sqlDBOk : Bool) (cat : List (Migration σ)) (db : DB σ) :
    DB σ × Option String :=
  if sqlDBOk then ((MigrateUp cat db).1, (MigrateUp cat db).2.2)
  else (db, some "sql handle unavailable")

/-- The trace of the cmd/server `main`: load config, initialise the
database, run the migrations, and only on their success construct the
repository, service, handler and gin router and start serving; any
earlier failure is fatal (log.Fatalf terminates the process). -/
def serverMain (initOk sqlDBOk : Bool) (cat : List (Migration σ))
    (db : DB σ) (runOk : Bool) : List ServerStep :=
  [ServerStep.loadConfig, ServerStep.initDB] ++
  (if initOk then
    [ServerStep.runMigrations] ++
    (match (RunMigrations sqlDBOk cat db).2 with
     | some _ => [ServerStep.fatalMigrations]
     | none =>
       [ServerStep.newRepository, ServerStep.newService,
        ServerStep.newHandler, ServerStep.setReleaseMode,
        ServerStep.ginNew, ServerStep.setupRoutes, ServerStep.routerRun] ++
       (if runOk then [] else [ServerStep.fatalRun]))
  else [ServerStep.fatalInit])

/-! ### Basic lemmas about the runner's building blocks -/

instance : DecidableRel (fun a b : Migration σ => a.id.data ≤ b.id.data) :=
  fun a b => inferInstanceAs (Decidable (a.id.data ≤ b.id.data))

instance : IsTotal (Migration σ) (fun a b => a.id.data ≤ b.id.data) :=
  ⟨fun a b => le_total a.id.data b.id.data⟩

instance : IsTrans (Migration σ) (fun a b => a.id.data ≤ b.id.data) :=
  ⟨fun _ _ _ hab hbc => le_trans hab hbc⟩

theorem ensureLedger_ledgerExists (db : DB σ) :
    (ensureLedger db).ledgerExists = true := by
  unfold ensureLedger
  by_cases h : db.ledgerExists <;> simp [h]

theorem ensureLedger_of_exists {db : DB σ} (h : db.ledgerExists = true) :
    ensureLedger db = db := by
  simp [ensureLedger, h]

theorem ensureLedger_rows (db : DB σ) :
    (ensureLedger db).ledger = ledgerRows db := by
  unfold ensureLedger ledgerRows
  by_cases h : db.ledgerExists <;> simp [h]

theorem mem_sortCat {cat : List (Migration σ)} {m : Migration σ} :
    m ∈ sortCat cat ↔ m ∈ cat := by
  simp [sortCat]

theorem sortCat_perm (cat : List (Migration σ)) :
    List.Perm (sortCat cat) cat :=
  List.perm_insertionSort _ cat

theorem sortCat_sorted (cat : List (Migration σ)) :
    (sortCat cat).Sorted (fun a b => a.id.data ≤ b.id.data) :=
  List.sorted_insertionSort _ cat

theorem mem_pendingOf {cat : List (Migration σ)} {db : DB σ}
    {m : Migration σ} :
    m ∈ pendingOf cat db ↔ m ∈ cat ∧ m.id ∉ appliedIds db := by
  simp [pendingOf, List.mem_filter, mem_sortCat]

theorem pendingOf_sublist (cat : List (Migration σ)) (db : DB σ) :
    List.Sublist (pendingOf cat db) (sortCat cat) :=
  List.filter_sublist _

theorem applyOne_some {m : Migration σ} {db db' : DB σ}
    (h : applyOne m db = some db') :
    ∃ s, m.up db.schema = some s ∧ m.id ∉ appliedIds db ∧
      db' = { db with schema := s,
                      ledger := db.ledger ++ [⟨m.id, db.clock⟩],
                      clock := db.clock + 1 } := by
  unfold applyOne insertLedger at h
  cases hu : m.up db.schema with
  | none => simp [hu] at h
  | some s =>
    simp only [hu] at h
    by_cases hm : m.id ∈ appliedIds { db with schema := s }
    · simp [hm] at h
    · rw [if_neg hm] at h
      injection h with h
      exact ⟨s, rfl, by simpa [appliedIds] using hm, h.symm⟩

theorem applyOne_some_appliedIds {m : Migration σ} {db db' : DB σ}
    (h : applyOne m db = some db') :
    appliedIds db' = appliedIds db ++ [m.id] := by
  obtain ⟨s, _, _, rfl⟩ := applyOne_some h
  simp [appliedIds]

theorem applyOne_some_ledgerExists {m : Migration σ} {db db' : DB σ}
    (h : applyOne m db = some db') :
    db'.ledgerExists = db.ledgerExists := by
  obtain ⟨s, _, _, rfl⟩ := applyOne_some h
  rfl

theorem applyOne_some_ledger {m : Migration σ} {db db' : DB σ}
    (h : applyOne m db = some db') :
    db'.ledger = db.ledger ++ [⟨m.id, db.clock⟩] := by
  obtain ⟨s, _, _, rfl⟩ := applyOne_some h
  rfl

theorem runPending_appliedIds :
    ∀ (p : List (Migration σ)) (db : DB σ),
      appliedIds (runPending p db).1 = appliedIds db ++ (runPending p db).2.1
  | [], db => by simp [runPending]
  | m :: rest, db => by
    unfold runPending
    cases h : applyOne m db with
    | none => simp
    | some db' =>
      simp only
      rw [runPending_appliedIds rest db', applyOne_some_appliedIds h]
      simp

theorem runPending_ledgerExists :
    ∀ (p : List (Migration σ)) (db : DB σ),
      (runPending p db).1.ledgerExists = db.ledgerExists
  | [], db => rfl
  | m :: rest, db => by
    unfold runPending
    cases h : applyOne m db with
    | none => simp
    | some db' =>
      simp only
      rw [runPending_ledgerExists rest db', applyOne_some_ledgerExists h]

theorem runPending_ledger_extends :
    ∀ (p : List (Migration σ)) (db : DB σ),
      ∃ tail, (runPending p db).1.ledger = db.ledger ++ tail
  | [], db => ⟨[], by simp [runPending]⟩
  | m :: rest, db => by
    unfold runPending
    cases h : applyOne m db with
    | none => exact ⟨[], by simp⟩
    | some db' =>
      simp only
      obtain ⟨tail, ht⟩ := runPending_ledger_extends rest db'
      exact ⟨[⟨m.id, db.clock⟩] ++ tail,
        by rw [ht, applyOne_some_ledger h, List.append_assoc]⟩

theorem runPending_success :
    ∀ (p : List (Migration σ)) (db : DB σ),
      (runPending p db).2.2 = none → (runPending p db).2.1 = p.map (·.id)
  | [], db => by simp [runPending]
  | m :: rest, db => by
    unfold runPending
    cases h : applyOne m db with
    | none => simp
    | some db' =>
      intro hnone
      simp only at hnone ⊢
      rw [runPending_success rest db' hnone]
      simp

theorem runPending_applied_sublist :
    ∀ (p : List (Migration σ)) (db : DB σ),
      List.Sublist (runPending p db).2.1 (p.map (·.id))
  | [], db => by simp [runPending]
  | m :: rest, db => by
    unfold runPending
    cases h : applyOne m db with
    | none => simp
    | some db' =>
      simpa using (runPending_applied_sublist rest db').cons₂ m.id

theorem runPending_failure :
    ∀ (p : List (Migration σ)) (db : DB σ) (e : String),
      (runPending p db).2.2 = some e →
      ∃ pre m post,
        p = pre ++ m :: post ∧ e = m.id ∧
        (runPending p db).2.1 = pre.map (·.id) ∧
        (runPending pre db).2.2 = none ∧
        (runPending p db).1 = (runPending pre db).1 ∧
        applyOne m (runPending pre db).1 = none
  | [], db, e => by simp [runPending]
  | m :: rest, db, e => by
    unfold runPending
    cases h : applyOne m db with
    | none =>
      intro he
      simp only at he
      refine ⟨[], m, rest, rfl, by simpa using he.symm, by simp, by
        simp [runPending], ?_, ?_⟩
      · simp [runPending]
      · simpa [runPending] using h
    | some db' =>
      intro he
      simp only at he
      obtain ⟨pre, mf, post, hp, hid, happ, hpre, hst, hfl⟩ :=
        runPending_failure rest db' e he
      refine ⟨m :: pre, mf, post, by simp [hp], hid, ?_, ?_, ?_, ?_⟩
      · simp only [List.map_cons]
        rw [← happ]
      · simp only [runPending, h]
        exact hpre
      · simp only [runPending, h]
        exact hst
      · simp only [runPending, h]
        exact hfl

theorem laterEntry_iff (a b : LedgerEntry) :
    laterEntry a b = true ↔ entryKey a < entryKey b := by
  simp [laterEntry, entryKey, Prod.Lex.lt_iff]

theorem foldl_last_spec :
    ∀ (es : List LedgerEntry) (a : LedgerEntry),
      (es.foldl (fun x b => if laterEntry x b then b else x) a) ∈ a :: es ∧
      ∀ x ∈ a :: es,
        entryKey x ≤
          entryKey (es.foldl (fun x b => if laterEntry x b then b else x) a)
  | [], a => by simp
  | b :: es, a => by
    simp only [List.foldl_cons]
    set c := if laterEntry a b then b else a with hc
    have hcab : c = b ∨ c = a := by
      rw [hc]; by_cases h : laterEntry a b <;> simp [h]
    have hka : entryKey a ≤ entryKey c := by
      rw [hc]; by_cases h : laterEntry a b
      · simp only [h, if_true]
        exact le_of_lt ((laterEntry_iff a b).1 h)
      · simp [h]
    have hkb : entryKey b ≤ entryKey c := by
      rw [hc]; by_cases h : laterEntry a b
      · simp [h]
      · simp only [h, if_false]
        exact le_of_not_lt fun hlt => h ((laterEntry_iff a b).2 hlt)
    obtain ⟨hmem, hmax⟩ := foldl_last_spec es c
    refine ⟨?_, ?_⟩
    · rcases List.mem_cons.1 hmem with h | h
      · rw [h]; rcases hcab with h' | h' <;> simp [h']
      · simp [h]
    · intro x hx
      have hhead :
          entryKey c ≤
            entryKey (es.foldl (fun x b => if laterEntry x b then b else x) c) :=
        hmax _ (List.mem_cons_self _ _)
      rcases List.mem_cons.1 hx with h | h
      · subst h; exact le_trans hka hhead
      · rcases List.mem_cons.1 h with h' | h'
        · subst h'; exact le_trans hkb hhead
        · exact hmax _ (List.mem_cons_of_mem _ h')

theorem lastApplied_spec {db : DB σ} {e : LedgerEntry}
    (h : lastApplied db = some e) :
    e ∈ ledgerRows db ∧ ∀ x ∈ ledgerRows db, entryKey x ≤ entryKey e := by
  unfold lastApplied at h
  cases hr : ledgerRows db with
  | nil => rw [hr] at h; exact absurd h (by simp)
  | cons a es =>
    rw [hr] at h
    injection h with h
    obtain ⟨hmem, hmax⟩ := foldl_last_spec es a
    rw [h] at hmem hmax
    exact ⟨hmem, hmax⟩

theorem lastApplied_isSome {db : DB σ} (h : ledgerRows db ≠ []) :
    ∃ e, lastApplied db = some e := by
  unfold lastApplied
  cases hr : ledgerRows db with
  | nil => exact absurd hr h
  | cons a es => exact ⟨_, rfl⟩

theorem lastApplied_none {db : DB σ} (h : ledgerRows db = []) :
    lastApplied db = none := by
  unfold lastApplied
  rw [h]

theorem StatusReport_ids (cat : List (Migration σ)) (db : DB σ) :
    (StatusReport cat db).map (·.id) = (sortCat cat).map (·.id) := by
  unfold StatusReport
  rw [List.map_map]
  apply List.map_congr_left
  intro m _
  cases h : (ledgerRows db).find? (fun e => e.id == m.id) <;> simp [h]

theorem sortCat_ids_sorted_lt {cat : List (Migration σ)}
    (hnd : (cat.map (·.id)).Nodup) :
    ((sortCat cat).map (·.id)).Sorted (· < ·) := by
  have hle : ((sortCat cat).map (·.id)).Sorted (· ≤ ·) := by
    rw [List.Sorted, List.pairwise_map]
    exact (sortCat_sorted cat).imp fun h => String.le_iff_toList_le.2 h
  have hnd' : ((sortCat cat).map (·.id)).Nodup :=
    (((sortCat_perm cat).map (·.id)).nodup_iff).2 hnd
  exact hle.lt_of_le hnd'

/-! ### Claim theorems -/

/-- C2: for every catalog, regardless of registration order, `MigrateUp`
applies pending migrations strictly in ascending id order and `Status`
reports entries in that same ascending id order; in particular a catalog
registered as 002, 001, 003 is processed in the order 001, 002, 003. -/
theorem c2_ascending_order :
    (∀ (σ : Type) (cat : List (Migration σ)) (db : DB σ),
      (cat.map (·.id)).Nodup →
      ((StatusReport cat db).map (·.id)).Sorted (· < ·) ∧
      ((MigrateUp cat db).2.1).Sorted (· < ·) ∧
      List.Perm ((StatusReport cat db).map (·.id)) (cat.map (·.id))) ∧
    (MigrateUp exampleCat exampleDB).2.1 = ["001", "002", "003"] ∧
    (StatusReport exampleCat exampleDB).map (·.id) =
      ["001", "002", "003"] := by
  refine ⟨?_, by decide, by decide⟩
  intro σ cat db hnd
  have hlt := sortCat_ids_sorted_lt hnd
  refine ⟨?_, ?_, ?_⟩
  · rw [StatusReport_ids]
    exact hlt
  · have h1 := runPending_applied_sublist
      (pendingOf cat (ensureLedger db)) (ensureLedger db)
    have h2 : List.Sublist ((pendingOf cat (ensureLedger db)).map (·.id))
        ((sortCat cat).map (·.id)) :=
      (pendingOf_sublist cat (ensureLedger db)).map _
    exact List.Pairwise.sublist (h1.trans h2) hlt
  · rw [StatusReport_ids]
    exact (sortCat_perm cat).map _

/-- Witness for C2 at a concrete out-of-order catalog. -/
theorem c2_witness :
    ((exampleCat.map (·.id)).Nodup) ∧
    (((StatusReport exampleCat exampleDB).map (·.id)).Sorted (· < ·) ∧
     ((MigrateUp exampleCat exampleDB).2.1).Sorted (· < ·) ∧
     List.Perm ((StatusReport exampleCat exampleDB).map (·.id))
       (exampleCat.map (·.id))) :=
  ⟨by decide, c2_ascending_order.1 Nat exampleCat exampleDB (by decide)⟩

/-- C6: `Status` mutates nothing (in particular it never creates the
ledger table), reports for every catalog entry in ascending catalog
order applied-with-timestamp exactly when a LedgerEntry for its id
exists and pending-with-no-timestamp otherwise, and reports an absent
ledger table as nothing applied rather than an error. -/
theorem c6_status_pure_accurate :
    ∀ (σ : Type) (cat : List (Migration σ)) (db : DB σ),
      (Status cat db).1 = db ∧
      ((Status cat db).2).map (·.id) = (sortCat cat).map (·.id) ∧
      (∀ line ∈ (Status cat db).2,
        (line.applied = true ↔ line.id ∈ (ledgerRows db).map (·.id)) ∧
        (line.applied = true →
          ∃ e ∈ ledgerRows db, e.id = line.id ∧
            line.applied_at = some e.applied_at) ∧
        (line.applied = false → line.applied_at = none)) ∧
      (db.ledgerExists = false →
        ∀ line ∈ (Status cat db).2,
          line.applied = false ∧ line.applied_at = none) := by
  intro σ cat db
  refine ⟨rfl, StatusReport_ids cat db, ?_, ?_⟩
  · intro line hline
    simp only [Status, StatusReport, List.mem_map] at hline
    obtain ⟨m, _, hline⟩ := hline
    cases hf : (ledgerRows db).find? (fun e => e.id == m.id) with
    | some e =>
      rw [hf] at hline
      subst hline
      have he_mem : e ∈ ledgerRows db := List.mem_of_find?_eq_some hf
      have he_id : e.id = m.id := by simpa using List.find?_some hf
      refine ⟨?_, ?_, ?_⟩
      · exact ⟨fun _ => List.mem_map.2 ⟨e, he_mem, he_id⟩, fun _ => rfl⟩
      · intro _
        exact ⟨e, he_mem, he_id, rfl⟩
      · intro h
        simp at h
    | none =>
      rw [hf] at hline
      subst hline
      refine ⟨⟨fun h => absurd h (by simp), ?_⟩, by simp, fun _ => rfl⟩
      intro hmem
      obtain ⟨e, he_mem, he_id⟩ := List.mem_map.1 hmem
      exact absurd (by simpa using he_id) (List.find?_eq_none.1 hf e he_mem)
  · intro hne line hline
    have hrows : ledgerRows db = [] := by simp [ledgerRows, hne]
    simp only [Status, StatusReport, List.mem_map] at hline
    obtain ⟨m, _, hline⟩ := hline
    rw [hrows] at hline
    simp only [List.find?_nil] at hline
    subst hline
    exact ⟨rfl, rfl⟩

/-- Witness for C6: catalog with ids 001 and 002 over a ledger
containing only 001 (applied at time 5). -/
theorem c6_witness :
    Status twoCat oneAppliedDB =
      (oneAppliedDB, [⟨"001", true, some 5⟩, ⟨"002", false, none⟩]) ∧
    (Status twoCat oneAppliedDB).1 = oneAppliedDB :=
  ⟨by decide, (c6_status_pure_accurate Nat twoCat oneAppliedDB).1⟩

theorem MigrateUp_eq (cat : List (Migration σ)) (db : DB σ) :
    MigrateUp cat db =
      runPending (pendingOf cat (ensureLedger db)) (ensureLedger db) :=
  rfl

theorem pendingOf_ids_nodup {cat : List (Migration σ)}
    (hnd : (cat.map (·.id)).Nodup) (db : DB σ) :
    ((pendingOf cat db).map (·.id)).Nodup := by
  have h1 : ((sortCat cat).map (·.id)).Nodup :=
    (((sortCat_perm cat).map (·.id)).nodup_iff).2 hnd
  exact h1.sublist ((pendingOf_sublist cat db).map _)

theorem nodup_split_facts {pre post : List (Migration σ)}
    {m : Migration σ}
    (h : ((pre ++ m :: post).map (·.id)).Nodup) :
    m.id ∉ pre.map (·.id) ∧ ∀ x ∈ post, x.id ∉ pre.map (·.id) := by
  rw [List.map_append, List.map_cons] at h
  obtain ⟨-, -, hdisj⟩ := List.nodup_append.1 h
  constructor
  · exact fun hmem => hdisj hmem (List.mem_cons_self _ _)
  · intro x hx hmem
    exact hdisj hmem
      (List.mem_cons_of_mem _ (List.mem_map.2 ⟨x, hx, rfl⟩))

/-- C1: if during `MigrateUp` a pending migration's transaction (its up
procedure or its ledger insert) fails, that transaction is rolled back —
the final state is exactly the one left by the migrations committed
before it and no LedgerEntry for the offending id exists afterward — no
subsequent pending migration is attempted, the returned error carries
the offending migration id, and every migration committed before the
failing one remains applied. -/
theorem c1_failed_migration_rolls_back_and_halts :
    ∀ (σ : Type) (cat : List (Migration σ)) (db : DB σ) (e : String),
      (cat.map (·.id)).Nodup →
      (MigrateUp cat db).2.2 = some e →
      ∃ pre m post,
        pendingOf cat (ensureLedger db) = pre ++ m :: post ∧
        e = m.id ∧
        (MigrateUp cat db).2.1 = pre.map (·.id) ∧
        (runPending pre (ensureLedger db)).2.2 = none ∧
        (MigrateUp cat db).1 = (runPending pre (ensureLedger db)).1 ∧
        applyOne m (runPending pre (ensureLedger db)).1 = none ∧
        e ∉ appliedIds (MigrateUp cat db).1 ∧
        appliedIds (MigrateUp cat db).1 =
          appliedIds (ensureLedger db) ++ pre.map (·.id) ∧
        (∃ tail, (MigrateUp cat db).1.ledger =
          (ensureLedger db).ledger ++ tail) := by
  intro σ cat db e hnd hfail
  obtain ⟨pre, m, post, hp, hid, happ, hpre, hst, hfl⟩ :=
    runPending_failure (pendingOf cat (ensureLedger db)) (ensureLedger db)
      e hfail
  have hmem_m : m ∈ pendingOf cat (ensureLedger db) := by
    rw [hp]; exact List.mem_append_right _ (List.mem_cons_self _ _)
  have hm_not_db1 : m.id ∉ appliedIds (ensureLedger db) :=
    (mem_pendingOf.1 hmem_m).2
  have hndp := pendingOf_ids_nodup hnd (ensureLedger db)
  rw [hp] at hndp
  obtain ⟨hm_not_pre, -⟩ := nodup_split_facts hndp
  have hids := runPending_appliedIds
    (pendingOf cat (ensureLedger db)) (ensureLedger db)
  refine ⟨pre, m, post, hp, hid, happ, hpre, hst, hfl, ?_, ?_, ?_⟩
  · show e ∉ appliedIds
      (runPending (pendingOf cat (ensureLedger db)) (ensureLedger db)).1
    rw [hids, happ, hid]
    intro hmem
    rcases List.mem_append.1 hmem with h | h
    · exact hm_not_db1 h
    · exact hm_not_pre h
  · show appliedIds
      (runPending (pendingOf cat (ensureLedger db)) (ensureLedger db)).1 =
      appliedIds (ensureLedger db) ++ pre.map (·.id)
    rw [hids, happ]
  · exact runPending_ledger_extends _ _

/-- Witness for C1: migration 001 commits, 002 fails, 003 is never
attempted. -/
theorem c1_witness :
    (failSecondCat.map (·.id)).Nodup ∧
    (MigrateUp failSecondCat exampleDB).2.2 = some "002" ∧
    (∃ pre m post,
      pendingOf failSecondCat (ensureLedger exampleDB) =
        pre ++ m :: post ∧
      "002" = m.id ∧
      (MigrateUp failSecondCat exampleDB).2.1 = pre.map (·.id) ∧
      (runPending pre (ensureLedger exampleDB)).2.2 = none ∧
      (MigrateUp failSecondCat exampleDB).1 =
        (runPending pre (ensureLedger exampleDB)).1 ∧
      applyOne m (runPending pre (ensureLedger exampleDB)).1 = none ∧
      "002" ∉ appliedIds (MigrateUp failSecondCat exampleDB).1 ∧
      appliedIds (MigrateUp failSecondCat exampleDB).1 =
        appliedIds (ensureLedger exampleDB) ++ pre.map (·.id) ∧
      (∃ tail, (MigrateUp failSecondCat exampleDB).1.ledger =
        (ensureLedger exampleDB).ledger ++ tail)) :=
  ⟨by decide, by decide,
    c1_failed_migration_rolls_back_and_halts Nat failSecondCat exampleDB
      "002" (by decide) (by decide)⟩

/-- C3 counterexample: with a catalog whose only migration always
fails, the first `MigrateUp` call fails, and the second consecutive
call neither finds an empty pending set nor returns success. -/
theorem c3_counterexample :
    (MigrateUp failCat exampleDB).2.2 = some "001" ∧
    (MigrateUp failCat ((MigrateUp failCat exampleDB).1)).2.2 ≠ none ∧
    (pendingOf failCat
      (ensureLedger (MigrateUp failCat exampleDB).1)).map (·.id) =
      ["001"] := by
  refine ⟨by decide, by decide, by decide⟩

/-- C3 (amended): MigrateUp twice consecutively yields the same final
state as once; when the first call succeeds, the second finds an empty
pending set, applies zero migrations and returns success; and for
catalogs with unique ids the two consecutive calls always end in the
same state with the same result, success or not. -/
theorem c3_idempotent :
    ∀ (σ : Type) (cat : List (Migration σ)) (db : DB σ),
      ((MigrateUp cat db).2.2 = none →
        pendingOf cat (ensureLedger (MigrateUp cat db).1) = [] ∧
        MigrateUp cat (MigrateUp cat db).1 =
          ((MigrateUp cat db).1, [], none)) ∧
      ((cat.map (·.id)).Nodup →
        (MigrateUp cat (MigrateUp cat db).1).1 = (MigrateUp cat db).1 ∧
        (MigrateUp cat (MigrateUp cat db).1).2.2 =
          (MigrateUp cat db).2.2) := by
  intro σ cat db
  have hex : (MigrateUp cat db).1.ledgerExists = true := by
    have h1 := runPending_ledgerExists
      (pendingOf cat (ensureLedger db)) (ensureLedger db)
    have h2 := ensureLedger_ledgerExists db
    exact h1.trans h2
  have hens : ensureLedger (MigrateUp cat db).1 = (MigrateUp cat db).1 :=
    ensureLedger_of_exists hex
  have hids := runPending_appliedIds
    (pendingOf cat (ensureLedger db)) (ensureLedger db)
  have hsucc_core : (MigrateUp cat db).2.2 = none →
      pendingOf cat (MigrateUp cat db).1 = [] := by
    intro hnone
    have happ := runPending_success
      (pendingOf cat (ensureLedger db)) (ensureLedger db) hnone
    apply List.filter_eq_nil_iff.2
    intro m hm
    simp only [decide_eq_true_eq, not_not]
    have hmcat : m ∈ cat := mem_sortCat.1 hm
    show m.id ∈ appliedIds
      (runPending (pendingOf cat (ensureLedger db)) (ensureLedger db)).1
    rw [hids, happ]
    by_cases hdb1 : m.id ∈ appliedIds (ensureLedger db)
    · exact List.mem_append_left _ hdb1
    · refine List.mem_append_right _ ?_
      have : m ∈ pendingOf cat (ensureLedger db) :=
        mem_pendingOf.2 ⟨hmcat, hdb1⟩
      exact List.mem_map.2 ⟨m, this, rfl⟩
  constructor
  · intro hnone
    have hpend := hsucc_core hnone
    refine ⟨by rw [hens]; exact hpend, ?_⟩
    show runPending (pendingOf cat (ensureLedger (MigrateUp cat db).1))
      (ensureLedger (MigrateUp cat db).1) = _
    rw [hens, hpend]
    rfl
  · intro hnd
    cases hfail : (MigrateUp cat db).2.2 with
    | none =>
      have hpend := hsucc_core hfail
      have : MigrateUp cat (MigrateUp cat db).1 =
          ((MigrateUp cat db).1, [], none) := by
        show runPending
          (pendingOf cat (ensureLedger (MigrateUp cat db).1))
          (ensureLedger (MigrateUp cat db).1) = _
        rw [hens, hpend]
        rfl
      rw [this]
      exact ⟨rfl, rfl⟩
    | some e =>
      obtain ⟨pre, m, post, hp, hid, happ, hpre, hst, hfl⟩ :=
        runPending_failure (pendingOf cat (ensureLedger db))
          (ensureLedger db) e hfail
      have hndp := pendingOf_ids_nodup hnd (ensureLedger db)
      rw [hp] at hndp
      obtain ⟨hm_not_pre, hpost_not_pre⟩ := nodup_split_facts hndp
      have hpend2 : pendingOf cat (MigrateUp cat db).1 = m :: post := by
        unfold pendingOf
        have hfilter :
            ∀ x ∈ sortCat cat,
              decide (x.id ∉ appliedIds (MigrateUp cat db).1) =
              (decide (x.id ∉ pre.map (·.id)) &&
               decide (x.id ∉ appliedIds (ensureLedger db))) := by
          intro x _
          rw [MigrateUp_eq, hids, happ]
          by_cases h1 : x.id ∈ appliedIds (ensureLedger db) <;>
            by_cases h2 : x.id ∈ pre.map (·.id) <;>
            simp [h1, h2, List.mem_append]
        rw [List.filter_congr hfilter, ← List.filter_filter]
        have : (sortCat cat).filter
            (fun x => decide (x.id ∉ appliedIds (ensureLedger db))) =
            pendingOf cat (ensureLedger db) := rfl
        rw [this, hp, List.filter_append, List.filter_cons]
        have hpre_nil : pre.filter
            (fun x => decide (x.id ∉ pre.map (·.id))) = [] := by
          apply List.filter_eq_nil_iff.2
          intro x hx
          simp only [decide_eq_true_eq, not_not]
          exact List.mem_map.2 ⟨x, hx, rfl⟩
        have hpost_all : post.filter
            (fun x => decide (x.id ∉ pre.map (·.id))) = post := by
          apply List.filter_eq_self.2
          intro x hx
          simpa using hpost_not_pre x hx
        rw [hpre_nil, hpost_all]
        simp [hm_not_pre]
      have hsecond : MigrateUp cat (MigrateUp cat db).1 =
          ((MigrateUp cat db).1, [], some m.id) := by
        show runPending
          (pendingOf cat (ensureLedger (MigrateUp cat db).1))
          (ensureLedger (MigrateUp cat db).1) = _
        rw [hens, hpend2]
        show (match applyOne m (MigrateUp cat db).1 with
          | none => ((MigrateUp cat db).1, [], some m.id)
          | some db' =>
            ((runPending post db').1,
             m.id :: (runPending post db').2.1,
             (runPending post db').2.2)) = _
        rw [MigrateUp_eq, hst, hfl]
      rw [hsecond]
      exact ⟨rfl, by rw [hid]⟩

/-- Witness for C3 at a concrete catalog whose two migrations both
succeed. -/
theorem c3_witness :
    (MigrateUp twoCat exampleDB).2.2 = none ∧
    (twoCat.map (·.id)).Nodup ∧
    (pendingOf twoCat (ensureLedger (MigrateUp twoCat exampleDB).1) = [] ∧
     MigrateUp twoCat (MigrateUp twoCat exampleDB).1 =
       ((MigrateUp twoCat exampleDB).1, [], none)) ∧
    (MigrateUp twoCat (MigrateUp twoCat exampleDB).1).1 =
      (MigrateUp twoCat exampleDB).1 :=
  ⟨by decide, by decide,
    (c3_idempotent Nat twoCat exampleDB).1 (by decide),
    ((c3_idempotent Nat twoCat exampleDB).2 (by decide)).1⟩

/-- C4: `MigrateDown` rolls back exactly the single most-recently-applied
migration — invoking only that migration's down procedure and deleting
only its LedgerEntry, in one transaction, never a cascade — and on an
empty ledger it returns success and performs no database mutation. -/
theorem c4_rollback_targets_only_last :
    ∀ (σ : Type) (cat : List (Migration σ)) (db : DB σ),
      db.ledgerExists = true →
      (db.ledger = [] → MigrateDown cat db = (db, none, none)) ∧
      (∀ e, lastApplied db = some e →
        e ∈ db.ledger ∧
        (∀ x ∈ db.ledger, entryKey x ≤ entryKey e) ∧
        (∀ m, findMigration cat e.id = some m →
          (m.down db.schema = none →
            MigrateDown cat db = (db, none, some e.id)) ∧
          (∀ s, m.down db.schema = some s →
            MigrateDown cat db =
              ({ db with
                  schema := s,
                  ledger := db.ledger.filter (fun x => !(x.id == e.id)) },
               some e.id, none) ∧
            (∀ x ∈ db.ledger, x.id ≠ e.id →
              x ∈ (MigrateDown cat db).1.ledger)))) := by
  intro σ cat db hex
  have hens : ensureLedger db = db := ensureLedger_of_exists hex
  have hrows : ledgerRows db = db.ledger := by simp [ledgerRows, hex]
  constructor
  · intro h0
    have hnone : lastApplied db = none := lastApplied_none (hrows.trans h0)
    simp only [MigrateDown]
    rw [hens, hnone]
  · intro e hlast
    obtain ⟨hmem, hmax⟩ := lastApplied_spec hlast
    rw [hrows] at hmem hmax
    refine ⟨hmem, hmax, ?_⟩
    intro m hfm
    constructor
    · intro hdn
      simp only [MigrateDown, hens, hlast, hfm, hdn]
    · intro s hds
      have heq : MigrateDown cat db =
          ({ db with
              schema := s,
              ledger := db.ledger.filter (fun x => !(x.id == e.id)) },
           some e.id, none) := by
        simp only [MigrateDown, hens, hlast, hfm, hds]
      refine ⟨heq, ?_⟩
      intro x hx hne
      rw [heq]
      simp [List.mem_filter, hx, hne]

/-- Witness for C4: with ledger 001, 002, 003 applied, rollback removes
only 003 and invokes only 003's down procedure. -/
theorem c4_witness :
    threeAppliedDB.ledgerExists = true ∧
    lastApplied threeAppliedDB = some ⟨"003", 3⟩ ∧
    MigrateDown threeCat threeAppliedDB =
      ({ threeAppliedDB with
          schema := 2,
          ledger := threeAppliedDB.ledger.filter
            (fun x => !(x.id == "003")) },
       some "003", none) ∧
    MigrateDown threeCat threeAppliedDB =
      (⟨2, true, [⟨"001", 1⟩, ⟨"002", 2⟩], 4⟩, some "003", none) :=
  ⟨rfl, by decide,
    ((((c4_rollback_targets_only_last Nat threeCat threeAppliedDB
        rfl).2 ⟨"003", 3⟩ (by decide)).2.2
        ⟨"003", fun s => some (s + 1), fun s => some (s - 1)⟩ rfl).2
        2 rfl).1,
    by decide⟩

theorem resumeCat_sorted (u1 u2 u3 d1 d2 d3 : σ → Option σ) :
    sortCat (resumeCat u1 u2 u3 d1 d2 d3) = resumeCat u1 u2 u3 d1 d2 d3 := by
  apply List.Sorted.insertionSort_eq
  unfold resumeCat
  refine List.Pairwise.cons ?_ (List.Pairwise.cons ?_
    (List.Pairwise.cons ?_ List.Pairwise.nil))
  · intro a ha
    rcases List.mem_cons.1 ha with h | h
    · subst h; show "001".data ≤ "002".data; decide
    · rcases List.mem_cons.1 h with h' | h'
      · subst h'; show "001".data ≤ "003".data; decide
      · exact absurd h' (List.not_mem_nil a)
  · intro a ha
    rcases List.mem_cons.1 ha with h | h
    · subst h; show "002".data ≤ "003".data; decide
    · exact absurd h (List.not_mem_nil a)
  · intro a ha
    exact absurd ha (List.not_mem_nil a)

/-- C5: with migrations 001 (succeeds), 002 (fails) and 003 (would
succeed), one failed MigrateUp leaves the ledger at exactly 001, and a
second call after fixing 002's definition skips 001, applies 002 then
003, and leaves the ledger at 001, 002, 003. -/
theorem c5_resumability :
    ∀ (σ : Type) (s0 s1 s2 s3 : σ)
      (u1 u2bad u2 u3 d1 d2 d3 : σ → Option σ) (b : Bool) (c0 : Nat),
      u1 s0 = some s1 →
      u2bad s1 = none →
      u2 s1 = some s2 →
      u3 s2 = some s3 →
      MigrateUp (resumeCat u1 u2bad u3 d1 d2 d3) (freshDB s0 b c0) =
        (⟨s1, true, [⟨"001", c0⟩], c0 + 1⟩, ["001"], some "002") ∧
      MigrateUp (resumeCat u1 u2 u3 d1 d2 d3)
        (MigrateUp (resumeCat u1 u2bad u3 d1 d2 d3) (freshDB s0 b c0)).1 =
        (⟨s3, true, [⟨"001", c0⟩, ⟨"002", c0 + 1⟩, ⟨"003", c0 + 2⟩],
          c0 + 3⟩, ["002", "003"], none) := by
  intro σ s0 s1 s2 s3 u1 u2bad u2 u3 d1 d2 d3 b c0 hu1 hu2b hu2 hu3
  have hens1 : ensureLedger (freshDB s0 b c0) = freshDB s0 true c0 := by
    cases b <;> rfl
  have hpend1 : pendingOf (resumeCat u1 u2bad u3 d1 d2 d3)
      (freshDB s0 true c0) = resumeCat u1 u2bad u3 d1 d2 d3 := by
    unfold pendingOf
    rw [resumeCat_sorted]
    apply List.filter_eq_self.2
    intro a _
    simp [appliedIds, freshDB]
  have hfirst : MigrateUp (resumeCat u1 u2bad u3 d1 d2 d3)
      (freshDB s0 b c0) =
      (⟨s1, true, [⟨"001", c0⟩], c0 + 1⟩, ["001"], some "002") := by
    rw [MigrateUp_eq, hens1, hpend1]
    simp [resumeCat, runPending, applyOne, insertLedger, appliedIds,
      freshDB, hu1, hu2b]
  refine ⟨hfirst, ?_⟩
  rw [hfirst]
  have hens2 : ensureLedger
      (⟨s1, true, [⟨"001", c0⟩], c0 + 1⟩ : DB σ) =
      ⟨s1, true, [⟨"001", c0⟩], c0 + 1⟩ := rfl
  have hpend2 : pendingOf (resumeCat u1 u2 u3 d1 d2 d3)
      (⟨s1, true, [⟨"001", c0⟩], c0 + 1⟩ : DB σ) =
      [⟨"002", u2, d2⟩, ⟨"003", u3, d3⟩] := by
    unfold pendingOf
    rw [resumeCat_sorted]
    simp [resumeCat, appliedIds, List.filter]
  rw [MigrateUp_eq, hens2, hpend2]
  simp [runPending, applyOne, insertLedger, appliedIds, hu2, hu3]

/-- Witness for C5 over concrete Nat schema states. -/
theorem c5_witness :
    ((fun _ : Nat => (some 1 : Option Nat)) 0 = some 1) ∧
    ((fun _ : Nat => (none : Option Nat)) 1 = none) ∧
    ((fun _ : Nat => (some 2 : Option Nat)) 1 = some 2) ∧
    ((fun _ : Nat => (some 3 : Option Nat)) 2 = some 3) ∧
    (MigrateUp (resumeCat (fun _ : Nat => some 1) (fun _ => none)
        (fun _ => some 3) (fun _ => none) (fun _ => none) (fun _ => none))
      (freshDB 0 true 0) =
      (⟨1, true, [⟨"001", 0⟩], 1⟩, ["001"], some "002") ∧
    MigrateUp (resumeCat (fun _ : Nat => some 1) (fun _ => some 2)
        (fun _ => some 3) (fun _ => none) (fun _ => none) (fun _ => none))
      (MigrateUp (resumeCat (fun _ : Nat => some 1) (fun _ => none)
          (fun _ => some 3) (fun _ => none) (fun _ => none)
          (fun _ => none))
        (freshDB 0 true 0)).1 =
      (⟨3, true, [⟨"001", 0⟩, ⟨"002", 1⟩, ⟨"003", 2⟩], 3⟩,
       ["002", "003"], none)) :=
  ⟨rfl, rfl, rfl, rfl,
    c5_resumability Nat 0 1 2 3 (fun _ => some 1) (fun _ => none)
      (fun _ => some 2) (fun _ => some 3) (fun _ => none) (fun _ => none)
      (fun _ => none) true 0 rfl rfl rfl rfl⟩

theorem ledgerRows_of_WF {db : DB σ} (h : WFLedger db) :
    ledgerRows db = db.ledger := by
  unfold ledgerRows
  by_cases hx : db.ledgerExists
  · simp [hx]
  · simp [hx, h (by simpa using hx)]

theorem appliedIds_ensureLedger {db : DB σ} (h : WFLedger db) :
    appliedIds (ensureLedger db) = appliedIds db := by
  unfold appliedIds
  rw [ensureLedger_rows, ledgerRows_of_WF h]

theorem netUpFrom_append (b : Bool) (l r : List MigEvent) (x : String) :
    netUpFrom b (l ++ r) x = netUpFrom (netUpFrom b l x) r x := by
  simp [netUpFrom, List.foldl_append]

theorem netUpFrom_ups :
    ∀ (applied : List String) (b : Bool) (x : String),
      netUpFrom b (applied.map MigEvent.upCommit) x =
        (b || decide (x ∈ applied))
  | [], b, x => by simp [netUpFrom]
  | i :: rest, b, x => by
    have hstep : netUpFrom b ((i :: rest).map MigEvent.upCommit) x =
        netUpFrom (if i = x then true else b)
          (rest.map MigEvent.upCommit) x := rfl
    rw [hstep, netUpFrom_ups rest]
    by_cases h : i = x
    · subst h
      simp
    · simp [h, List.mem_cons, Ne.symm h]

theorem upWith_nil (x : String) : ¬ upWithNoLaterDown [] x := by
  rintro ⟨l, r, heq, -⟩
  exact absurd heq (by simp)

theorem upWith_cons (e : MigEvent) (evs : List MigEvent) (x : String) :
    upWithNoLaterDown (e :: evs) x ↔
      (e = MigEvent.upCommit x ∧ MigEvent.downCommit x ∉ evs) ∨
      upWithNoLaterDown evs x := by
  constructor
  · rintro ⟨l, r, hre, hnr⟩
    cases l with
    | nil =>
      simp only [List.nil_append, List.cons.injEq] at hre
      exact Or.inl ⟨hre.1, hre.2 ▸ hnr⟩
    | cons a l' =>
      simp only [List.cons_append, List.cons.injEq] at hre
      exact Or.inr ⟨l', r, hre.2, hnr⟩
  · rintro (⟨he, hn⟩ | ⟨l, r, hre, hnr⟩)
    · exact ⟨[], evs, by simp [he], hn⟩
    · exact ⟨e :: l, r, by rw [hre]; rfl, hnr⟩

theorem netUp_iff :
    ∀ (evs : List MigEvent) (b : Bool) (x : String),
      netUpFrom b evs x = true ↔
        (upWithNoLaterDown evs x ∨
         (b = true ∧ MigEvent.downCommit x ∉ evs))
  | [], b, x => by
    simp [netUpFrom, upWith_nil]
  | e :: evs, b, x => by
    rw [upWith_cons]
    cases e with
    | upCommit i =>
      have hstep : netUpFrom b (MigEvent.upCommit i :: evs) x =
          netUpFrom (if i = x then true else b) evs x := rfl
      rw [hstep, netUp_iff evs]
      by_cases h : i = x
      · subst h
        simp [List.mem_cons] <;> tauto
      · simp [List.mem_cons, h, Ne.symm h] <;> tauto
    | downCommit i =>
      have hstep : netUpFrom b (MigEvent.downCommit i :: evs) x =
          netUpFrom (if i = x then false else b) evs x := rfl
      rw [hstep, netUp_iff evs]
      by_cases h : i = x
      · subst h
        simp [List.mem_cons] <;> tauto
      · simp [List.mem_cons, h, Ne.symm h] <;> tauto

theorem MigrateDown_eq (cat : List (Migration σ)) (db : DB σ) :
    MigrateDown cat db =
      match lastApplied (ensureLedger db) with
      | none => (ensureLedger db, none, none)
      | some e =>
        match findMigration cat e.id with
        | none => (ensureLedger db, none, some e.id)
        | some m =>
          match m.down (ensureLedger db).schema with
          | none => (ensureLedger db, none, some e.id)
          | some s =>
            ({ ensureLedger db with
                schema := s,
                ledger := (ensureLedger db).ledger.filter
                  (fun x => !(x.id == e.id)) },
             some e.id, none) := rfl

theorem step_spec (c : Cmd σ) (db : DB σ) (h : WFLedger db)
    (x : String) :
    WFLedger (step c db).1 ∧
    (x ∈ appliedIds (step c db).1 ↔
      netUpFrom (decide (x ∈ appliedIds db)) (step c db).2 x = true) := by
  cases c with
  | up cat =>
    constructor
    · intro hf
      have hf' : (runPending (pendingOf cat (ensureLedger db))
          (ensureLedger db)).1.ledgerExists = false := hf
      have h1 := runPending_ledgerExists
        (pendingOf cat (ensureLedger db)) (ensureLedger db)
      rw [hf', ensureLedger_ledgerExists db] at h1
      exact absurd h1 (by simp)
    · show x ∈ appliedIds (MigrateUp cat db).1 ↔
        netUpFrom _ ((MigrateUp cat db).2.1.map MigEvent.upCommit) x = true
      rw [netUpFrom_ups, MigrateUp_eq]
      rw [runPending_appliedIds, appliedIds_ensureLedger h]
      simp [List.mem_append]
  | down cat =>
    show WFLedger (MigrateDown cat db).1 ∧
      (x ∈ appliedIds (MigrateDown cat db).1 ↔
        netUpFrom _ (match (MigrateDown cat db).2.1 with
          | some i => [MigEvent.downCommit i]
          | none => []) x = true)
    have hexists : ∀ dbx : DB σ, dbx.ledgerExists = true → WFLedger dbx :=
      fun dbx hx hf => absurd (hx.symm.trans hf) (by simp)
    have hrows : (ensureLedger db).ledger = db.ledger := by
      rw [ensureLedger_rows, ledgerRows_of_WF h]
    cases hl : lastApplied (ensureLedger db) with
    | none =>
      simp only [MigrateDown_eq, hl]
      refine ⟨hexists _ (ensureLedger_ledgerExists db), ?_⟩
      rw [appliedIds_ensureLedger h]
      simp [netUpFrom]
    | some e =>
      cases hf : findMigration cat e.id with
      | none =>
        simp only [MigrateDown_eq, hl, hf]
        refine ⟨hexists _ (ensureLedger_ledgerExists db), ?_⟩
        rw [appliedIds_ensureLedger h]
        simp [netUpFrom]
      | some m =>
        cases hd : m.down (ensureLedger db).schema with
        | none =>
          simp only [MigrateDown_eq, hl, hf, hd]
          refine ⟨hexists _ (ensureLedger_ledgerExists db), ?_⟩
          rw [appliedIds_ensureLedger h]
          simp [netUpFrom]
        | some s =>
          simp only [MigrateDown_eq, hl, hf, hd]
          refine ⟨hexists _ (by simp [ensureLedger_ledgerExists db]), ?_⟩
          have hmem : x ∈ appliedIds
              ({ ensureLedger db with
                  schema := s,
                  ledger := (ensureLedger db).ledger.filter
                    (fun y => !(y.id == e.id)) } : DB σ) ↔
              (x ∈ appliedIds db ∧ x ≠ e.id) := by
            simp only [appliedIds, hrows, List.mem_map, List.mem_filter]
            constructor
            · rintro ⟨a, ⟨ha, hne⟩, rfl⟩
              refine ⟨⟨a, ha, rfl⟩, ?_⟩
              simpa using hne
            · rintro ⟨⟨a, ha, rfl⟩, hne⟩
              exact ⟨a, ⟨ha, by simpa using hne⟩, rfl⟩
          rw [hmem]
          have hfold : netUpFrom (decide (x ∈ appliedIds db))
              [MigEvent.downCommit e.id] x =
              (if e.id = x then false else decide (x ∈ appliedIds db)) :=
            rfl
          rw [hfold]
          by_cases hx : e.id = x
          · subst hx
            simp
          · simp only [if_neg hx]
            simp [hx]
            exact fun _ hxe => hx hxe.symm
  | status cat =>
    exact ⟨h, by simp [step, Status, netUpFrom]⟩

theorem run_spec :
    ∀ (cmds : List (Cmd σ)) (db : DB σ), WFLedger db → ∀ x : String,
      (x ∈ appliedIds (run cmds db).1 ↔
        netUpFrom (decide (x ∈ appliedIds db)) (run cmds db).2 x = true)
  | [], db, h, x => by simp [run, netUpFrom]
  | c :: cs, db, h, x => by
    obtain ⟨hwf, hmem⟩ := step_spec c db h x
    have IH := run_spec cs (step c db).1 hwf x
    simp only [run]
    rw [netUpFrom_append]
    have hb : netUpFrom (decide (x ∈ appliedIds db)) (step c db).2 x =
        decide (x ∈ appliedIds (step c db).1) := by
      rcases hv : netUpFrom (decide (x ∈ appliedIds db)) (step c db).2 x
        with _ | _
      · rcases hw : decide (x ∈ appliedIds (step c db).1) with _ | _
        · rfl
        · exact absurd (hmem.1 (by simpa using hw)) (by simp [hv])
      · rcases hw : decide (x ∈ appliedIds (step c db).1) with _ | _
        · exact absurd (hmem.2 hv) (by simpa using hw)
        · rfl
    rw [hb]
    exact IH

/-- C8: in every state reachable by any sequence of MigrateUp,
MigrateDown and Status invocations from a fresh database, a LedgerEntry
exists for id x if and only if migration x's up procedure has
successfully committed and no subsequent rollback of x has committed. -/
theorem c8_ledger_iff_up_committed :
    ∀ (σ : Type) (s0 : σ) (b : Bool) (c0 : Nat)
      (cmds : List (Cmd σ)) (x : String),
      x ∈ appliedIds (run cmds (freshDB s0 b c0)).1 ↔
        upWithNoLaterDown (run cmds (freshDB s0 b c0)).2 x := by
  intro σ s0 b c0 cmds x
  have hwf : WFLedger (freshDB s0 b c0) := fun _ => rfl
  rw [run_spec cmds _ hwf x]
  have hb0 : decide (x ∈ appliedIds (freshDB s0 b c0)) = false := by
    simp [appliedIds, freshDB]
  rw [hb0, netUp_iff]
  simp

/-- Witness for C8: apply both migrations of a two-entry catalog, then
roll one back; the invariant is checked on the resulting trace. -/
theorem c8_witness :
    appliedIds (run [Cmd.up twoCat, Cmd.down twoCat]
      (freshDB 0 true 0)).1 = ["001"] ∧
    (run [Cmd.up twoCat, Cmd.down twoCat] (freshDB 0 true 0)).2 =
      [MigEvent.upCommit "001", MigEvent.upCommit "002",
       MigEvent.downCommit "002"] ∧
    ("002" ∈ appliedIds (run [Cmd.up twoCat, Cmd.down twoCat]
        (freshDB 0 true 0)).1 ↔
      upWithNoLaterDown (run [Cmd.up twoCat, Cmd.down twoCat]
        (freshDB 0 true 0)).2 "002") :=
  ⟨by decide, by decide,
    c8_ledger_iff_up_committed Nat 0 true 0
      [Cmd.up twoCat, Cmd.down twoCat] "002"⟩

/-- C9 counterexample: the ledger table DDL documented in the
repository (docs/MIGRATIONS.md) declares the id column as VARCHAR(255),
not TEXT as the claim states. -/
theorem c9_counterexample :
    (schemaMigrationsDDL.columns.find? (fun c => c.name == "id")).map
      (fun c => c.type) = some "VARCHAR(255)" ∧
    (schemaMigrationsDDL.columns.find? (fun c => c.name == "id")).map
      (fun c => c.type) ≠ some "TEXT" := by
  decide

/-- C9 (amended): the Runner creates the ledger table idempotently
(create-if-absent, never dropping or altering it) with the layout
table schema_migrations, column id of type VARCHAR(255) as primary key
and column applied_at of type TIMESTAMP defaulting to
CURRENT_TIMESTAMP. -/
theorem c9_ledger_table_layout :
    schemaMigrationsDDL.name = "schema_migrations" ∧
    schemaMigrationsDDL.columns.length = 2 ∧
    (∃ c ∈ schemaMigrationsDDL.columns, c.name = "id" ∧
      c.type = "VARCHAR(255)" ∧ c.primaryKey = true ∧
      c.defaultVal = none) ∧
    (∃ c ∈ schemaMigrationsDDL.columns, c.name = "applied_at" ∧
      c.type = "TIMESTAMP" ∧ c.primaryKey = false ∧
      c.defaultVal = some "CURRENT_TIMESTAMP") ∧
    (∀ (σ : Type) (db : DB σ),
      ensureLedger (ensureLedger db) = ensureLedger db ∧
      (db.ledgerExists = true → ensureLedger db = db) ∧
      (ensureLedger db).ledgerExists = true ∧
      (ensureLedger db).ledger = ledgerRows db ∧
      (ensureLedger db).schema = db.schema) := by
  refine ⟨rfl, rfl, by decide, by decide, ?_⟩
  intro σ db
  refine ⟨ensureLedger_of_exists (ensureLedger_ledgerExists db),
    fun h => ensureLedger_of_exists h, ensureLedger_ledgerExists db,
    ensureLedger_rows db, ?_⟩
  unfold ensureLedger
  by_cases h : db.ledgerExists <;> simp [h]

/-- Witness for C9 at a concrete database with the ledger table
present. -/
theorem c9_witness :
    exampleDB.ledgerExists = true ∧
    ensureLedger exampleDB = exampleDB ∧
    ensureLedger (ensureLedger exampleDB) = ensureLedger exampleDB :=
  ⟨rfl,
    ((c9_ledger_table_layout.2.2.2.2 Nat exampleDB).2.1 rfl),
    (c9_ledger_table_layout.2.2.2.2 Nat exampleDB).1⟩

/-- C7 counterexample: invoking cmd/migrate with an unknown command
still opens and pings the database before the unknown-command error is
surfaced by the dispatch switch. -/
theorem c7_counterexample :
    CliStep.fatalUnknown "frobnicate" ∈
      migrateMain "frobnicate" true true true ∧
    CliStep.dbPing ∈
      (migrateMain "frobnicate" true true true).takeWhile
        (fun s => !(s == CliStep.fatalUnknown "frobnicate")) ∧
    isDbInteraction CliStep.dbPing = true := by
  decide

/-- C7 (amended): a command outside up/down/status is rejected by the
dispatch switch before any migration operation is executed — no
up/down/status operation ever runs — but only after the database
connection has been opened and pinged. -/
theorem c7_unknown_command_no_operation :
    ∀ (cmd : String), cmd ≠ "up" → cmd ≠ "down" → cmd ≠ "status" →
      ∀ (openOk pingOk opOk : Bool),
        CliStep.execUp ∉ migrateMain cmd openOk pingOk opOk ∧
        CliStep.execDown ∉ migrateMain cmd openOk pingOk opOk ∧
        CliStep.execStatus ∉ migrateMain cmd openOk pingOk opOk ∧
        (openOk = true → pingOk = true →
          migrateMain cmd openOk pingOk opOk =
            [CliStep.loadConfig, CliStep.sqlOpen, CliStep.dbPing,
             CliStep.newRunner, CliStep.fatalUnknown cmd]) := by
  intro cmd h1 h2 h3 openOk pingOk opOk
  rcases openOk with _ | _ <;> rcases pingOk with _ | _ <;>
    simp [migrateMain, h1, h2, h3]

/-- Witness for C7 at the concrete unknown command. -/
theorem c7_witness :
    ("frobnicate" : String) ≠ "up" ∧
    ("frobnicate" : String) ≠ "down" ∧
    ("frobnicate" : String) ≠ "status" ∧
    (CliStep.execUp ∉ migrateMain "frobnicate" true true true ∧
     CliStep.execDown ∉ migrateMain "frobnicate" true true true ∧
     CliStep.execStatus ∉ migrateMain "frobnicate" true true true ∧
     (true = true → true = true →
       migrateMain "frobnicate" true true true =
         [CliStep.loadConfig, CliStep.sqlOpen, CliStep.dbPing,
          CliStep.newRunner, CliStep.fatalUnknown "frobnicate"])) :=
  ⟨by decide, by decide, by decide,
    c7_unknown_command_no_operation "frobnicate" (by decide) (by decide)
      (by decide) true true true⟩

/-- C10: in the cmd/server entry point, RunMigrations runs before the
gin router is constructed or started; a migration error makes the trace
end at the fatal step with no router construction, routing setup or
serving; and the server serves only when every pending migration was
applied successfully. -/
theorem c10_migrations_before_serving :
    ∀ (σ : Type) (initOk sqlDBOk : Bool) (cat : List (Migration σ))
      (db : DB σ) (runOk : Bool),
      (ServerStep.ginNew ∈ serverMain initOk sqlDBOk cat db runOk →
        ServerStep.runMigrations ∈ serverMain initOk sqlDBOk cat db runOk ∧
        (serverMain initOk sqlDBOk cat db runOk).indexOf
            ServerStep.runMigrations <
          (serverMain initOk sqlDBOk cat db runOk).indexOf
            ServerStep.ginNew) ∧
      (ServerStep.routerRun ∈ serverMain initOk sqlDBOk cat db runOk →
        (RunMigrations sqlDBOk cat db).2 = none ∧
        (MigrateUp cat db).2.2 = none ∧ sqlDBOk = true) ∧
      ((RunMigrations sqlDBOk cat db).2 ≠ none →
        ServerStep.ginNew ∉ serverMain initOk sqlDBOk cat db runOk ∧
        ServerStep.setupRoutes ∉ serverMain initOk sqlDBOk cat db runOk ∧
        ServerStep.routerRun ∉ serverMain initOk sqlDBOk cat db runOk) ∧
      (initOk = true → (RunMigrations sqlDBOk cat db).2 ≠ none →
        (serverMain initOk sqlDBOk cat db runOk).getLast? =
          some ServerStep.fatalMigrations) := by
  intro σ initOk sqlDBOk cat db runOk
  rcases initOk with _ | _ <;> rcases sqlDBOk with _ | _ <;>
    rcases runOk with _ | _ <;>
    cases hm : (MigrateUp cat db).2.2 <;>
    simp [serverMain, RunMigrations, hm] <;> decide

/-- Witness for C10 on a concrete successful boot. -/
theorem c10_witness :
    ServerStep.routerRun ∈ serverMain true true twoCat exampleDB true ∧
    ((RunMigrations true twoCat exampleDB).2 = none ∧
     (MigrateUp twoCat exampleDB).2.2 = none ∧ true = true) :=
  ⟨by decide,
    ((c10_migrations_before_serving Nat true true twoCat exampleDB
      true).2.1) (by decide)⟩

end MigrationSpec
